import Mathlib

set_option maxRecDepth 8000

/-!
Shallow embedding of src/xr/sqlFormatter/SqlTokenizer.js.

The tokenizer works on JavaScript strings; we model them as `List Char`.
Each "get...Token" method of the class is modelled as a Lean function of the
same name.  The regular expressions the constructor builds are fixed, so each
one is translated into an explicit matching function, following JavaScript
regex semantics (leftmost match of the first alternative that lets the whole
pattern succeed, greedy quantifiers with backtracking, `^` anchoring).

Two JavaScript peculiarities of the source are modelled faithfully:

* NUMBER_REGEX is built from a *cooked template literal*.  In the template,
  the two-character sequence backslash-s ("\s") is an unrecognised string
  escape, so it cooks to a plain "s": the pattern piece `(-\s*)?` becomes
  `(-s*)?` — an optional minus followed by literal letters "s", NOT optional
  whitespace.  Likewise the fragment between `$|\s|` and the boundary
  alternation is the three literal characters quote-apostrophe-backtick
  (one alternative matching that 3-character sequence), not a character
  class.  (`\\.` and `\\s` in the template cook to `\.` and `\s`.)

* When a regex `match` returns null, the JS methods return `undefined`.
  `getQuotedStringToken` can therefore build a token whose `value` is
  `undefined` (modelled as `none`); `tokenize` then throws a TypeError when
  reading `token.value.length` (modelled as `TokResult.crash`).  In
  `getVariableToken`, `"@" + undefined` is the *string* "@undefined"
  (JavaScript string coercion), modelled explicitly below.

Configured keyword lists are joined with "|" into an alternation.  We model
each configured word as a literal alternative tried in list order, which is
exactly the JS behaviour for words free of regex metacharacters; `join` of
the empty list is the empty pattern, i.e. a single empty alternative
(`wordAlts`).  The one configuration below that contains a word with a "."
is commented where it is used: there the JS wildcard "." matches the literal
"." of the input, so literal modelling coincides with the regex.
-/

namespace SqlFmt

/-- Token kinds; the members of the sqlTokenTypes module referenced by the
tokenizer (QUOTE is the spec's QUOTED_STRING, COMMENT its LINE_COMMENT). -/
inductive TokType where
  | WHITESPACE
  | COMMENT
  | BLOCK_COMMENT
  | QUOTE
  | BACKTICK_QUOTE
  | VARIABLE
  | NUMBER
  | BOUNDARY
  | RESERVED_TOPLEVEL
  | RESERVED_NEWLINE
  | RESERVED
  | WORD
deriving DecidableEq, Repr

/-- A token: `value` is `none` when the JS object's value is `undefined`
(which happens only when STRING_REGEX fails to match). -/
structure Token where
  type : TokType
  value : Option (List Char)
deriving DecidableEq, Repr

/-- The four keyword lists handed to the constructor. -/
structure Config where
  reservedWords : List (List Char)
  reservedToplevelWords : List (List Char)
  reservedNewlineWords : List (List Char)
  functionWords : List (List Char)

/-- The backtick character (code 96). -/
def bqChar : Char := Char.ofNat 96

/-- The apostrophe character (code 39). -/
def sqChar : Char := Char.ofNat 39

/-- The double-quote character (code 34). -/
def dqChar : Char := Char.ofNat 34

/-- The backslash character (code 92). -/
def bsChar : Char := Char.ofNat 92

/-- JavaScript regex `\s` (the WhiteSpace and LineTerminator code points). -/
def isJsSpace (c : Char) : Bool :=
  c.toNat == 32 || c.toNat == 9 || c.toNat == 10 || c.toNat == 11 ||
  c.toNat == 12 || c.toNat == 13 || c.toNat == 160 || c.toNat == 5760 ||
  (Nat.ble 8192 c.toNat && Nat.ble c.toNat 8202) ||
  c.toNat == 8232 || c.toNat == 8233 || c.toNat == 8239 ||
  c.toNat == 8287 || c.toNat == 12288 || c.toNat == 65279

/-- JavaScript regex `.` matches everything except line terminators. -/
def isDotMatchable (c : Char) : Bool :=
  !(c.toNat == 10 || c.toNat == 13 || c.toNat == 8232 || c.toNat == 8233)

/-- The characters of the `boundaries` alternation in the constructor. -/
def boundaryChars : List Char :=
  [',', ';', ':', ')', '(', '.', '=', '<', '>', '+', '-', '*', '/', '!', '^', '%', '|', '&', '#']

/-- Membership in the boundary set. -/
def isBoundary (c : Char) : Bool := boundaryChars.contains c

/-- `[0-9]` -/
def isDigitCh (c : Char) : Bool := Nat.ble 48 c.toNat && Nat.ble c.toNat 57

/-- `[0-9a-fA-F]` -/
def isHexCh (c : Char) : Bool :=
  isDigitCh c || (Nat.ble 97 c.toNat && Nat.ble c.toNat 102) ||
  (Nat.ble 65 c.toNat && Nat.ble c.toNat 70)

/-- `[01]` -/
def isBinCh (c : Char) : Bool := c == '0' || c == '1'

/-- `[a-zA-Z0-9._$]`, the variable-name class in getVariableToken. -/
def isIdentCh (c : Char) : Bool :=
  (Nat.ble 97 c.toNat && Nat.ble c.toNat 122) ||
  (Nat.ble 65 c.toNat && Nat.ble c.toNat 90) ||
  isDigitCh c || c == '.' || c == '_' || c == '$'

/-- ASCII lower-casing, for the `i` regex flag on keyword patterns. -/
def lowerCh (c : Char) : Char :=
  if Nat.ble 65 c.toNat && Nat.ble c.toNat 90 then Char.ofNat (c.toNat + 32) else c

/-- Case-insensitive character comparison. -/
def ciEq (a b : Char) : Bool := lowerCh a == lowerCh b

/-- WHITESPACE_REGEX `^(\s+)`: the (non-empty) maximal whitespace prefix. -/
def matchWhitespace (l : List Char) : Option (List Char) :=
  let run := l.takeWhile isJsSpace
  if run.isEmpty then none else some run

/-- getWhitespaceToken -/
def getWhitespaceToken (l : List Char) : Option Token :=
  (matchWhitespace l).map (fun v => ⟨.WHITESPACE, some v⟩)

/-- The `.*?(?:\n|$)` tail of LINE_COMMENT_REGEX: lazily up to and including
the first newline, or to end of input; fails if a character `.` cannot match
(a line terminator other than the newline alternative) is hit first. -/
def lineCommentBody : List Char → Option (List Char)
  | [] => some []
  | c :: rest =>
    if c == '\n' then some [c]
    else if isDotMatchable c then (lineCommentBody rest).map (fun t => c :: t)
    else none

/-- LINE_COMMENT_REGEX `^((?:#|--).*?(?:\n|$))`. -/
def matchLineComment (l : List Char) : Option (List Char) :=
  if l.take 1 == ['#'] then (lineCommentBody (l.drop 1)).map (fun t => '#' :: t)
  else if l.take 2 == ['-', '-'] then
    (lineCommentBody (l.drop 2)).map (fun t => '-' :: '-' :: t)
  else none

/-- The `[^]*?(?:\*\/|$)` tail of BLOCK_COMMENT_REGEX: lazily up to and
including the first star-slash, or everything (`[^]` matches any character). -/
def blockBody : List Char → List Char
  | '*' :: '/' :: _ => ['*', '/']
  | c :: rest => c :: blockBody rest
  | [] => []

/-- BLOCK_COMMENT_REGEX `^(\/\*[^]*?(?:\*\/|$))`. -/
def matchBlockComment (l : List Char) : Option (List Char) :=
  if l.take 2 == ['/', '*'] then some ('/' :: '*' :: blockBody (l.drop 2)) else none

/-- getCommentToken: line comment first, then block comment. -/
def getCommentToken (l : List Char) : Option Token :=
  match matchLineComment l with
  | some v => some ⟨.COMMENT, some v⟩
  | none => (matchBlockComment l).map (fun v => ⟨.BLOCK_COMMENT, some v⟩)

/-- One segment `o[^c]*($|c)` of the backtick/bracket styles of STRING_REGEX:
an opener, a run of non-closers, then the closer or end of input.  Returns
the consumed characters and the rest. -/
def simpleSeg (opener closer : Char) : List Char → Option (List Char × List Char)
  | [] => none
  | c :: rest =>
    if c == opener then
      let run := rest.takeWhile (fun d => !(d == closer))
      match rest.drop run.length with
      | [] => some (c :: run, [])
      | d :: rest3 => some (c :: (run ++ [d]), rest3)
    else none

/-- Greedy repetition of further segments (the `(...)+` / `(...)*` gluing):
keeps appending segments while they parse. -/
def segsFrom (opener closer : Char) : Nat → List Char → List Char → List Char × List Char
  | 0, l, acc => (acc, l)
  | fuel + 1, l, acc =>
    match simpleSeg opener closer l with
    | some (c, rest) => segsFrom opener closer fuel rest (acc ++ c)
    | none => (acc, l)

/-- Alternative 1 of STRING_REGEX: `(`+backtick segments, glued. -/
def matchBacktick (l : List Char) : Option (List Char) :=
  match simpleSeg bqChar bqChar l with
  | some (c, rest) => some (segsFrom bqChar bqChar rest.length rest c).1
  | none => none

/-- Alternative 2 of STRING_REGEX: `(\[[^\]]*($|\]))(\][^\]]*($|\]))*` —
a bracket group, then further groups opened by a `]`. -/
def matchBracket (l : List Char) : Option (List Char) :=
  match simpleSeg '[' ']' l with
  | some (c, rest) => some (segsFrom ']' ']' rest.length rest c).1
  | none => none

/-- The `[^q\\]*(?:\\.[^q\\]*)*(q|$)` part of the quote styles: runs of
plain characters and backslash escapes, then the closing quote or end of
input.  A trailing backslash (or a backslash before a line terminator,
which `.` cannot match) makes the whole segment fail. -/
def escChunks (q : Char) : Nat → List Char → Option (List Char × List Char)
  | fuel, l =>
    let run := l.takeWhile (fun d => !(d == q || d == bsChar))
    match l.drop run.length with
    | [] => some (run, [])
    | c :: rest2 =>
      if c == q then some (run ++ [c], rest2)
      else
        match rest2 with
        | [] => none
        | d :: rest3 =>
          if isDotMatchable d then
            match fuel with
            | 0 => none
            | fuel' + 1 =>
              match escChunks q fuel' rest3 with
              | some (tail, r) => some ((run ++ [c, d]) ++ tail, r)
              | none => none
          else none

/-- One `q...` quote segment. -/
def escSeg (q : Char) : List Char → Option (List Char × List Char)
  | [] => none
  | c :: rest =>
    if c == q then
      match escChunks q rest.length rest with
      | some (body, r) => some (c :: body, r)
      | none => none
    else none

/-- Greedy `(...)+` gluing of quote segments. -/
def escMany (q : Char) : Nat → List Char → List Char → List Char × List Char
  | 0, l, acc => (acc, l)
  | fuel + 1, l, acc =>
    match escSeg q l with
    | some (c, rest) => escMany q fuel rest (acc ++ c)
    | none => (acc, l)

/-- Alternatives 3 and 4 of STRING_REGEX (double- and single-quoted). -/
def matchEscQuote (q : Char) (l : List Char) : Option (List Char) :=
  match escSeg q l with
  | some (c, rest) => some (escMany q rest.length rest c).1
  | none => none

/-- getQuotedString: `input.match(STRING_REGEX)`, returning `matches[1]` or
undefined (`none`).  Alternatives are tried in source order. -/
def getQuotedString (l : List Char) : Option (List Char) :=
  match matchBacktick l with
  | some v => some v
  | none =>
    match matchBracket l with
    | some v => some v
    | none =>
      match matchEscQuote dqChar l with
      | some v => some v
      | none => matchEscQuote sqChar l

/-- getQuotedStringToken: fires whenever the first character is a quote
character; the token's value is `undefined` (none) if STRING_REGEX fails. -/
def getQuotedStringToken (l : List Char) : Option Token :=
  match l with
  | [] => none
  | c :: _ =>
    if c == dqChar || c == sqChar || c == bqChar || c == '[' then
      some ⟨if c == bqChar || c == '[' then .BACKTICK_QUOTE else .QUOTE,
            getQuotedString l⟩
    else none

/-- The characters of the JS string "undefined": `"@" + undefined` coerces
the undefined to this string. -/
def jsUndefined : List Char := ['u', 'n', 'd', 'e', 'f', 'i', 'n', 'e', 'd']

/-- getVariableToken: sigil `@` or `:` with a following character; quoted
variable names delegate to getQuotedString (note the JS string coercion when
that returns undefined), otherwise `^(sigil[a-zA-Z0-9._$]+)`. -/
def getVariableToken (l : List Char) : Option Token :=
  match l with
  | c0 :: c1 :: rest =>
    if c0 == '@' || c0 == ':' then
      if c1 == dqChar || c1 == sqChar || c1 == bqChar then
        some ⟨.VARIABLE, some (c0 :: (match getQuotedString (c1 :: rest) with
                                      | some s => s
                                      | none => jsUndefined))⟩
      else
        let run := (c1 :: rest).takeWhile isIdentCh
        if run.isEmpty then none else some ⟨.VARIABLE, some (c0 :: run)⟩
    else none
  | _ => none

/-- Group 4 of NUMBER_REGEX, `($|\s|"'` + backtick + `|boundaries)`: end of
input, a whitespace character, the literal three-character sequence
double-quote apostrophe backtick (see the header comment on template-literal
cooking), or a boundary character. -/
def numG4 : List Char → Bool
  | [] => true
  | c :: rest =>
    isJsSpace c || isBoundary c || (c == dqChar && rest.take 2 == [sqChar, bqChar])

/-- Greedy backtracking over a counter: tries `f n`, `f (n-1)`, ..., `f 0`
and returns the first success — the search order of a greedy quantifier. -/
def descFind (f : Nat → Option Nat) : Nat → Option Nat
  | 0 => f 0
  | n + 1 =>
    match f (n + 1) with
    | some a => some a
    | none => descFind f n

/-- Length of the maximal digit run. -/
def digitRun (l : List Char) : Nat := (l.takeWhile isDigitCh).length

/-- The optional fraction `(\.[0-9]+)?` (present case) starting at offset
`afterD`, followed by group 4; greedy over the fraction digit count. -/
def fracSearch (l : List Char) (afterD : Nat) : Option Nat :=
  match l.drop afterD with
  | c :: t3 =>
    if c == '.' then
      descFind (fun j =>
        if j == 0 then none
        else if numG4 (l.drop (afterD + 1 + j)) then some (afterD + 1 + j) else none)
        (digitRun t3)
    else none
  | [] => none

/-- The `[0-9]+(\.[0-9]+)?` core of NUMBER_REGEX's first alternative,
starting at offset `pre`, followed by group 4; returns the group-1 match
length (from offset 0).  Digit and fraction lengths backtrack greedily,
the fraction-present branch being preferred. -/
def alt1From (l : List Char) (pre : Nat) : Option Nat :=
  if digitRun (l.drop pre) == 0 then none
  else
    descFind (fun k =>
      if k == 0 then none
      else
        match fracSearch l (pre + k) with
        | some n => some n
        | none => if numG4 (l.drop (pre + k)) then some (pre + k) else none)
      (digitRun (l.drop pre))

/-- The present case of the greedy `(-s*)?` prefix: a minus, then a
backtracking-greedy run of literal "s" characters, then the digit core. -/
def signSearch (l : List Char) : Option Nat :=
  match l with
  | c :: rest =>
    if c == '-' then
      descFind (fun k => alt1From l (1 + k)) ((rest.takeWhile (fun d => d == 's')).length)
    else none
  | [] => none

/-- First alternative of NUMBER_REGEX group 1, `(-s*)?[0-9]+(\.[0-9]+)?`:
the prefix-present case is preferred (greedy `?`), then the bare core. -/
def alt1 (l : List Char) : Option Nat :=
  match signSearch l with
  | some n => some n
  | none => alt1From l 0

/-- Second alternative `0x[0-9a-fA-F]+` followed by group 4. -/
def alt0x (l : List Char) : Option Nat :=
  match l with
  | '0' :: 'x' :: rest =>
    let h := (rest.takeWhile isHexCh).length
    descFind (fun k =>
      if k == 0 then none
      else if numG4 (l.drop (2 + k)) then some (2 + k) else none) h
  | _ => none

/-- Third alternative `0b[01]+` followed by group 4. -/
def alt0b (l : List Char) : Option Nat :=
  match l with
  | '0' :: 'b' :: rest =>
    let h := (rest.takeWhile isBinCh).length
    descFind (fun k =>
      if k == 0 then none
      else if numG4 (l.drop (2 + k)) then some (2 + k) else none) h
  | _ => none

/-- NUMBER_REGEX: the three group-1 alternatives in source order; the result
is the length of `matches[1]`. -/
def numberMatchLen (l : List Char) : Option Nat :=
  match alt1 l with
  | some n => some n
  | none =>
    match alt0x l with
    | some n => some n
    | none => alt0b l

/-- getNumberToken -/
def getNumberToken (l : List Char) : Option Token :=
  (numberMatchLen l).map (fun n => ⟨.NUMBER, some (l.take n)⟩)

/-- getBoundaryCharacterToken: BOUNDARY_REGEX `^(boundaries)`. -/
def getBoundaryCharacterToken : List Char → Option Token
  | [] => none
  | c :: _ => if isBoundary c then some ⟨.BOUNDARY, some [c]⟩ else none

/-- Case-insensitive "w is a prefix of l" (a literal alternative under the
`i` flag). -/
def ciStarts : List Char → List Char → Bool
  | [], _ => true
  | _ :: _, [] => false
  | a :: w, b :: l => ciEq a b && ciStarts w l

/-- `words.join("|")` as a list of alternatives: the join of the empty list
is the empty pattern — a single empty alternative. -/
def wordAlts (words : List (List Char)) : List (List Char) :=
  match words with
  | [] => [[]]
  | _ => words

/-- Regex alternation over literal alternatives: the first alternative (in
order) that is a prefix and lets the trailing context `extra` match wins;
`matches[1]` is the matched slice of the *input* (case preserved). -/
def findAlt (extra : List Char → Bool) : List (List Char) → List Char → Option (List Char)
  | [], _ => none
  | w :: ws, l =>
    if ciStarts w l && extra (l.drop w.length) then some (l.take w.length)
    else findAlt extra ws l

/-- The `($|\s|boundaries)` context of the three reserved-word regexes. -/
def reservedG2 : List Char → Bool
  | [] => true
  | c :: _ => isJsSpace c || isBoundary c

/-- The `\(` context of FUNCTION_REGEX. -/
def funcG2 : List Char → Bool
  | c :: _ => c == '('
  | [] => false

/-- One reserved-word regex `^(alternation)($|\s|boundaries)` with flag i. -/
def reservedMatch (words : List (List Char)) (l : List Char) : Option (List Char) :=
  findAlt reservedG2 (wordAlts words) l

/-- FUNCTION_REGEX `^(alternation)\(` with flag i. -/
def functionMatch (words : List (List Char)) (l : List Char) : Option (List Char) :=
  findAlt funcG2 (wordAlts words) l

/-- The guard `previousToken && previousToken.value && previousToken.value === "."`. -/
def prevIsDot : Option Token → Bool
  | some t => t.value == some ['.']
  | none => false

/-- getReservedWordToken: skipped after a "." token; otherwise toplevel,
then newline, then plain reserved words. -/
def getReservedWordToken (cfg : Config) (l : List Char) (prev : Option Token) : Option Token :=
  if prevIsDot prev then none
  else
    match reservedMatch cfg.reservedToplevelWords l with
    | some v => some ⟨.RESERVED_TOPLEVEL, some v⟩
    | none =>
      match reservedMatch cfg.reservedNewlineWords l with
      | some v => some ⟨.RESERVED_NEWLINE, some v⟩
      | none => (reservedMatch cfg.reservedWords l).map (fun v => ⟨.RESERVED, some v⟩)

/-- getFunctionWordToken (kind RESERVED). -/
def getFunctionWordToken (cfg : Config) (l : List Char) : Option Token :=
  (functionMatch cfg.functionWords l).map (fun v => ⟨.RESERVED, some v⟩)

/-- Group 1 of NON_RESERVED_WORD_REGEX `^(.*?)($|\s|["'`]|boundaries)`:
lazily, the characters before the first terminator (whitespace, one of the
three quote characters, a boundary character, or end of input).  Every
character `.` cannot match is itself whitespace, so the match always
succeeds. -/
def fallbackRun : List Char → List Char
  | [] => []
  | c :: rest =>
    if isJsSpace c || (c == dqChar || c == sqChar || c == bqChar) || isBoundary c then []
    else c :: fallbackRun rest

/-- getNonReservedWordToken: always produces a token (possibly empty). -/
def getNonReservedWordToken (l : List Char) : Option Token :=
  some ⟨.WORD, some (fallbackRun l)⟩

/-- getNextToken: the `||` chain of matchers, first truthy result wins. -/
def getNextTokenOpt (cfg : Config) (l : List Char) (prev : Option Token) : Option Token :=
  match getWhitespaceToken l with
  | some t => some t
  | none =>
  match getCommentToken l with
  | some t => some t
  | none =>
  match getQuotedStringToken l with
  | some t => some t
  | none =>
  match getVariableToken l with
  | some t => some t
  | none =>
  match getNumberToken l with
  | some t => some t
  | none =>
  match getBoundaryCharacterToken l with
  | some t => some t
  | none =>
  match getReservedWordToken cfg l prev with
  | some t => some t
  | none =>
  match getFunctionWordToken cfg l with
  | some t => some t
  | none => getNonReservedWordToken l

/-- Result of a tokenize run.  `crash` models the TypeError thrown when
`token.value.length` is read from an `undefined` value (or from an entirely
undefined token); `outOfFuel` models non-termination of the `while` loop
within the given number of iterations. -/
inductive TokResult where
  | ok (tokens : List Token)
  | crash
  | outOfFuel
deriving DecidableEq, Repr

/-- The `while (input.length)` loop of tokenize, with an iteration budget.
Each iteration takes the next token, advances the input by the token
value's length, and appends the token. -/
def tokenizeGo (cfg : Config) : Nat → Option Token → List Char → TokResult
  | _, _, [] => .ok []
  | 0, _, _ :: _ => .outOfFuel
  | fuel + 1, prev, c :: rest =>
    match getNextTokenOpt cfg (c :: rest) prev with
    | none => .crash
    | some t =>
      match t.value with
      | none => .crash
      | some v =>
        match tokenizeGo cfg fuel (some t) ((c :: rest).drop v.length) with
        | .ok ts => .ok (t :: ts)
        | r => r

/-- tokenize: the loop starting from no previous token.  The budget
`l.length` is enough iterations for any run that makes progress (each
iteration must consume at least one character to terminate). -/
def tokenize (cfg : Config) (l : List Char) : TokResult :=
  tokenizeGo cfg l.length none l

/-- Concatenation of the emitted token texts (undefined contributing
nothing), for stating the losslessness invariant. -/
def valuesConcat (ts : List Token) : List Char :=
  ts.foldr (fun t acc => (t.value.getD []) ++ acc) []

/-- A small representative configuration for concrete evaluations. -/
def stdCfg : Config where
  reservedWords := [['a', 's'], ['o', 'n']]
  reservedToplevelWords := [['s', 'e', 'l', 'e', 'c', 't'], ['f', 'r', 'o', 'm']]
  reservedNewlineWords := [['a', 'n', 'd'], ['o', 'r']]
  functionWords := [['c', 'o', 'u', 'n', 't'], ['s', 'u', 'm']]

/-- The configuration whose four keyword lists are all empty. -/
def cfgEmpty : Config where
  reservedWords := []
  reservedToplevelWords := []
  reservedNewlineWords := []
  functionWords := []

/-- A configuration with "from" among the toplevel reserved words and an
additional toplevel word "t". -/
def cfg7bad : Config := ⟨[], [['t'], ['f', 'r', 'o', 'm']], [], []⟩

/-- The configuration whose toplevel reserved words are exactly "from". -/
def cfgFromOnly : Config := ⟨[], [['f', 'r', 'o', 'm']], [], []⟩

/-- A configuration with "count" among the function words and the two-word
phrase "count x" among the toplevel reserved words (multi-word phrases are
admitted keyword entries, e.g. "group by"). -/
def cfg8bad : Config := ⟨[], [['c', 'o', 'u', 'n', 't', ' ', 'x']], [], [['c', 'o', 'u', 'n', 't']]⟩

/-- The configuration whose function words are exactly "count". -/
def cfgCountOnly : Config := ⟨[], [], [], [['c', 'o', 'u', 'n', 't']]⟩

/-- A configuration with "from" among the toplevel reserved words and also
the phrase "t. from".  In the JS alternation the "." of that entry is the
wildcard, which on the input below matches the literal "." — so the literal
modelling of alternatives coincides with the regex on that input. -/
def cfg10bad : Config :=
  ⟨[], [['t', '.', ' ', 'f', 'r', 'o', 'm'], ['f', 'r', 'o', 'm']], [], []⟩

/-- Claim C1.  The losslessness invariant fails on the code: on the
three-character input at-sign double-quote backslash, STRING_REGEX produces
no match, `getVariableToken` coerces `"@" + undefined` to the literal
string "@undefined", and `tokenize` returns (for every configuration) a
single VARIABLE token whose text is "@undefined" — whose concatenation is
not the input. -/
theorem c1_undefined_value_breaks_losslessness :
    ∀ cfg : Config,
      tokenize cfg ['@', dqChar, bsChar] =
        .ok [⟨.VARIABLE, some ('@' :: jsUndefined)⟩] ∧
      valuesConcat [⟨.VARIABLE, some ('@' :: jsUndefined)⟩] ≠ ['@', dqChar, bsChar] :=
  fun _ => ⟨rfl, by decide⟩

/-- Claim C2.  The code contains no LexError path at all.  On the input
double-quote backslash the quoted-string rule's regex produces no match,
yet the chain does not fall through: `getQuotedStringToken` returns a token
with an undefined value and `tokenize` throws a TypeError reading
`token.value.length` (modelled as `crash`) — it fails, but not with a
LexError. -/
theorem c2_no_lexerror_typeerror_crash :
    ∀ cfg : Config, tokenize cfg [dqChar, bsChar] = .crash :=
  fun _ => rfl

/-- Claim C3.  Because of template-literal escape cooking, NUMBER_REGEX has
`(-s*)?` (literal letters "s", not whitespace) and a literal 3-character
lookahead sequence instead of a quote class.  Hence "- 5" is NOT one NUMBER
token (it is BOUNDARY, WHITESPACE, NUMBER for every configuration), and in
"5'x'" the "5" is NOT a NUMBER (an apostrophe does not satisfy group 4), it
is a WORD. -/
theorem c3_number_regex_escaping_behavior :
    (∀ cfg : Config,
      tokenize cfg ['-', ' ', '5'] =
        .ok [⟨.BOUNDARY, some ['-']⟩, ⟨.WHITESPACE, some [' ']⟩, ⟨.NUMBER, some ['5']⟩]) ∧
    tokenize stdCfg ['5', sqChar, 'x', sqChar] =
      .ok [⟨.WORD, some ['5']⟩, ⟨.QUOTE, some [sqChar, 'x', sqChar]⟩] :=
  ⟨fun _ => rfl, by decide⟩

/-- Claim C4.  An unterminated quote whose remaining content is a single
backslash makes the double/single-quote branches of STRING_REGEX fail
(`\\.` needs a character after the backslash and `[^'\\]` cannot consume
it), so instead of consuming to end of input, tokenize crashes with a
TypeError on the input apostrophe backslash, for every configuration. -/
theorem c4_unterminated_quote_crash :
    ∀ cfg : Config, tokenize cfg [sqChar, bsChar] = .crash :=
  fun _ => rfl

/-- Claim C5 counterexample.  Construction never fails in the code (the
constructor only builds regexes, with no validation): the all-empty
configuration yields a working tokenizer, no configuration error is ever
raised, and its keyword rules DO match the empty string (the reserved rule
matches zero characters before a space, the function rule before "("). -/
theorem c5_empty_config_constructs_and_matches_empty :
    reservedMatch [] [' '] = some [] ∧ functionMatch [] ['('] = some [] ∧
    tokenize cfgEmpty ['s', 'e', 'l'] = .ok [⟨.WORD, some ['s', 'e', 'l']⟩] := by
  decide

/-- Claim C6 counterexample.  On the input double-quote a backslash the
tokenizer does not return a token list at all: the quoted-string match is
undefined and the loop throws a TypeError (crash), refuting "terminates and
returns" as stated. -/
theorem c6_crash_input_does_not_return :
    tokenize stdCfg [dqChar, 'a', bsChar] = .crash := by
  decide

/-- Claim C7 counterexample.  A configuration with "from" among the
toplevel reserved words may also contain "t": then tokenize("t.from")
yields RESERVED_TOPLEVEL "t" first, not WORD "t", so the claimed exact
token sequence is wrong for that configuration. -/
theorem c7_extra_toplevel_word_changes_output :
    tokenize cfg7bad ['t', '.', 'f', 'r', 'o', 'm'] =
      .ok [⟨.RESERVED_TOPLEVEL, some ['t']⟩, ⟨.BOUNDARY, some ['.']⟩,
           ⟨.WORD, some ['f', 'r', 'o', 'm']⟩] ∧
    (TokResult.ok [⟨.RESERVED_TOPLEVEL, some ['t']⟩, ⟨.BOUNDARY, some ['.']⟩,
                   ⟨.WORD, some ['f', 'r', 'o', 'm']⟩]) ≠
      .ok [⟨.WORD, some ['t']⟩, ⟨.BOUNDARY, some ['.']⟩,
           ⟨.WORD, some ['f', 'r', 'o', 'm']⟩] := by
  decide

/-- Claim C7 as amended.  All three reserved-word matchers are skipped
whenever the previously emitted token's text is exactly "." (for every
configuration, input and token kind); and for the configuration whose
toplevel reserved words are exactly "from" (other lists empty),
tokenize("t.from") is WORD "t", BOUNDARY ".", WORD "from", with "from"
classified as WORD. -/
theorem c7_dot_suppression_amended :
    (∀ (cfg : Config) (l : List Char) (ty : TokType),
        getReservedWordToken cfg l (some ⟨ty, some ['.']⟩) = none) ∧
    tokenize cfgFromOnly ['t', '.', 'f', 'r', 'o', 'm'] =
      .ok [⟨.WORD, some ['t']⟩, ⟨.BOUNDARY, some ['.']⟩,
           ⟨.WORD, some ['f', 'r', 'o', 'm']⟩] :=
  ⟨fun _ _ _ => rfl, by decide⟩

/-- Claim C8 counterexample.  The reserved-word lists may contain multi-word
phrases; with "count" among the function words (and in none of the reserved
lists) but the phrase "count x" a toplevel reserved word, tokenize("count x")
is a single RESERVED_TOPLEVEL token, not WORD, WHITESPACE, WORD. -/
theorem c8_phrase_keyword_changes_output :
    tokenize cfg8bad ['c', 'o', 'u', 'n', 't', ' ', 'x'] =
      .ok [⟨.RESERVED_TOPLEVEL, some ['c', 'o', 'u', 'n', 't', ' ', 'x']⟩] ∧
    (TokResult.ok [⟨.RESERVED_TOPLEVEL, some ['c', 'o', 'u', 'n', 't', ' ', 'x']⟩]) ≠
      .ok [⟨.WORD, some ['c', 'o', 'u', 'n', 't']⟩, ⟨.WHITESPACE, some [' ']⟩,
           ⟨.WORD, some ['x']⟩] := by
  decide

/-- Claim C8 as amended.  For the configuration whose function words are
exactly "count" (all reserved lists empty): tokenize("count(") is RESERVED
"count" then BOUNDARY "(" (the function match consumes only the name), and
tokenize("count x") is WORD "count", WHITESPACE, WORD "x". -/
theorem c8_function_word_amended :
    tokenize cfgCountOnly ['c', 'o', 'u', 'n', 't', '('] =
      .ok [⟨.RESERVED, some ['c', 'o', 'u', 'n', 't']⟩, ⟨.BOUNDARY, some ['(']⟩] ∧
    tokenize cfgCountOnly ['c', 'o', 'u', 'n', 't', ' ', 'x'] =
      .ok [⟨.WORD, some ['c', 'o', 'u', 'n', 't']⟩, ⟨.WHITESPACE, some [' ']⟩,
           ⟨.WORD, some ['x']⟩] := by
  decide

/-- Claim C9.  For every configuration, the input apostrophe a apostrophe
apostrophe b apostrophe tokenizes to a single QUOTED_STRING token: the
single-quote branch of STRING_REGEX glues the adjacent quoted segments
greedily into one match. -/
theorem c9_adjacent_quote_gluing :
    ∀ cfg : Config,
      tokenize cfg [sqChar, 'a', sqChar, sqChar, 'b', sqChar] =
        .ok [⟨.QUOTE, some [sqChar, 'a', sqChar, sqChar, 'b', sqChar]⟩] :=
  fun _ => rfl

/-- Claim C10 counterexample.  A configuration with "from" among the
toplevel reserved words may also contain the phrase "t. from"; then
tokenize("t. from") is one RESERVED_TOPLEVEL token "t. from" and no token
"from" exists at all, so "from" is not classified RESERVED_TOPLEVEL (nor
anything else). -/
theorem c10_phrase_swallows_from :
    tokenize cfg10bad ['t', '.', ' ', 'f', 'r', 'o', 'm'] =
      .ok [⟨.RESERVED_TOPLEVEL, some ['t', '.', ' ', 'f', 'r', 'o', 'm']⟩] ∧
    (['t', '.', ' ', 'f', 'r', 'o', 'm'] : List Char) ≠ ['f', 'r', 'o', 'm'] := by
  decide

/-- Claim C10 as amended.  Reserved-word suppression depends only on the
immediately preceding token's text: after a whitespace token (text " "),
reserved matching is exactly as with no previous token at all; and for the
configuration whose toplevel reserved words are exactly "from",
tokenize("t. from") classifies "from" as RESERVED_TOPLEVEL, the token
preceding it being the whitespace token, not ".". -/
theorem c10_suppression_only_previous_amended :
    (∀ (cfg : Config) (l : List Char) (ty : TokType),
        getReservedWordToken cfg l (some ⟨ty, some [' ']⟩) =
          getReservedWordToken cfg l none) ∧
    tokenize cfgFromOnly ['t', '.', ' ', 'f', 'r', 'o', 'm'] =
      .ok [⟨.WORD, some ['t']⟩, ⟨.BOUNDARY, some ['.']⟩, ⟨.WHITESPACE, some [' ']⟩,
           ⟨.RESERVED_TOPLEVEL, some ['f', 'r', 'o', 'm']⟩] :=
  ⟨fun _ _ _ => rfl, by decide⟩

/-! ### Progress of the matcher chain

The lemmas below establish the progress guarantee: on a non-empty remaining
input, the chain always yields a token, and the winning token's text is
either undefined (the TypeError path) or non-empty — so the scan never
emits a zero-length token and `tokenize` completes within `l.length`
iterations. -/

theorem ws_none_head {c : Char} {r : List Char}
    (h : getWhitespaceToken (c :: r) = none) : isJsSpace c = false := by
  cases hsp : isJsSpace c
  · rfl
  · simp [getWhitespaceToken, matchWhitespace, List.takeWhile_cons, hsp] at h

theorem boundary_none_head {c : Char} {r : List Char}
    (h : getBoundaryCharacterToken (c :: r) = none) : isBoundary c = false := by
  cases hb : isBoundary c
  · rfl
  · simp [getBoundaryCharacterToken, hb] at h

theorem quoted_none_head {c : Char} {r : List Char}
    (h : getQuotedStringToken (c :: r) = none) :
    (c == dqChar) = false ∧ (c == sqChar) = false ∧ (c == bqChar) = false := by
  refine ⟨?_, ?_, ?_⟩
  · cases hq : c == dqChar
    · rfl
    · simp [getQuotedStringToken, hq] at h
  · cases hq : c == sqChar
    · rfl
    · simp [getQuotedStringToken, hq] at h
  · cases hq : c == bqChar
    · rfl
    · simp [getQuotedStringToken, hq] at h

theorem matchWhitespace_ne_nil {l v : List Char}
    (h : matchWhitespace l = some v) : v ≠ [] := by
  simp only [matchWhitespace] at h
  split at h
  · exact Option.noConfusion h
  · next he =>
    injection h with h'
    intro hn
    rw [h', hn] at he
    simp at he

theorem getWhitespaceToken_goodVal {l : List Char} {t : Token}
    (h : getWhitespaceToken l = some t) : ∃ v, t.value = some v ∧ v ≠ [] := by
  unfold getWhitespaceToken at h
  rw [Option.map_eq_some'] at h
  obtain ⟨v, hv, ht⟩ := h
  exact ⟨v, by rw [← ht], matchWhitespace_ne_nil hv⟩

theorem matchLineComment_ne_nil {l v : List Char}
    (h : matchLineComment l = some v) : v ≠ [] := by
  unfold matchLineComment at h
  split at h
  · rw [Option.map_eq_some'] at h
    obtain ⟨t, _, ht⟩ := h
    rw [← ht]
    exact List.cons_ne_nil _ _
  · split at h
    · rw [Option.map_eq_some'] at h
      obtain ⟨t, _, ht⟩ := h
      rw [← ht]
      exact List.cons_ne_nil _ _
    · exact Option.noConfusion h

theorem matchBlockComment_ne_nil {l v : List Char}
    (h : matchBlockComment l = some v) : v ≠ [] := by
  unfold matchBlockComment at h
  split at h
  · injection h with h'
    rw [← h']
    exact List.cons_ne_nil _ _
  · exact Option.noConfusion h

theorem getCommentToken_goodVal {l : List Char} {t : Token}
    (h : getCommentToken l = some t) : ∃ v, t.value = some v ∧ v ≠ [] := by
  unfold getCommentToken at h
  split at h
  · next v hv =>
    injection h with h'
    exact ⟨v, by rw [← h'], matchLineComment_ne_nil hv⟩
  · rw [Option.map_eq_some'] at h
    obtain ⟨v, hv, ht⟩ := h
    exact ⟨v, by rw [← ht], matchBlockComment_ne_nil hv⟩

theorem simpleSeg_ne_nil {o cl : Char} {l cs rest : List Char}
    (h : simpleSeg o cl l = some (cs, rest)) : cs ≠ [] := by
  cases l with
  | nil => simp [simpleSeg] at h
  | cons c r =>
    simp only [simpleSeg] at h
    split at h
    · split at h
      · injection h with h'
        injection h' with h1 _
        rw [← h1]
        exact List.cons_ne_nil _ _
      · injection h with h'
        injection h' with h1 _
        rw [← h1]
        exact List.cons_ne_nil _ _
    · exact Option.noConfusion h

theorem segsFrom_acc (o cl : Char) :
    ∀ (fuel : Nat) (l acc : List Char), ∃ s, (segsFrom o cl fuel l acc).1 = acc ++ s := by
  intro fuel
  induction fuel with
  | zero => intro l acc; exact ⟨[], by simp [segsFrom]⟩
  | succ m ih =>
    intro l acc
    unfold segsFrom
    cases hs : simpleSeg o cl l with
    | some p =>
      obtain ⟨cs, rest⟩ := p
      obtain ⟨s, hsone⟩ := ih rest (acc ++ cs)
      exact ⟨cs ++ s, by rw [hsone, List.append_assoc]⟩
    | none => exact ⟨[], by simp⟩

theorem matchBacktick_ne_nil {l v : List Char}
    (h : matchBacktick l = some v) : v ≠ [] := by
  unfold matchBacktick at h
  cases hs : simpleSeg bqChar bqChar l with
  | some p =>
    obtain ⟨cs, rest⟩ := p
    rw [hs] at h
    injection h with h'
    obtain ⟨s, hacc⟩ := segsFrom_acc bqChar bqChar rest.length rest cs
    rw [← h', hacc]
    exact List.append_ne_nil_of_left_ne_nil (simpleSeg_ne_nil hs) _
  | none => rw [hs] at h; exact Option.noConfusion h

theorem matchBracket_ne_nil {l v : List Char}
    (h : matchBracket l = some v) : v ≠ [] := by
  unfold matchBracket at h
  cases hs : simpleSeg '[' ']' l with
  | some p =>
    obtain ⟨cs, rest⟩ := p
    rw [hs] at h
    injection h with h'
    obtain ⟨s, hacc⟩ := segsFrom_acc ']' ']' rest.length rest cs
    rw [← h', hacc]
    exact List.append_ne_nil_of_left_ne_nil (simpleSeg_ne_nil hs) _
  | none => rw [hs] at h; exact Option.noConfusion h

theorem escSeg_ne_nil {q : Char} {l cs rest : List Char}
    (h : escSeg q l = some (cs, rest)) : cs ≠ [] := by
  cases l with
  | nil => simp [escSeg] at h
  | cons c r =>
    simp only [escSeg] at h
    split at h
    · split at h
      · injection h with h'
        injection h' with h1 _
        rw [← h1]
        exact List.cons_ne_nil _ _
      · exact Option.noConfusion h
    · exact Option.noConfusion h

theorem escMany_acc (q : Char) :
    ∀ (fuel : Nat) (l acc : List Char), ∃ s, (escMany q fuel l acc).1 = acc ++ s := by
  intro fuel
  induction fuel with
  | zero => intro l acc; exact ⟨[], by simp [escMany]⟩
  | succ m ih =>
    intro l acc
    unfold escMany
    cases hs : escSeg q l with
    | some p =>
      obtain ⟨cs, rest⟩ := p
      obtain ⟨s, hsone⟩ := ih rest (acc ++ cs)
      exact ⟨cs ++ s, by rw [hsone, List.append_assoc]⟩
    | none => exact ⟨[], by simp⟩

theorem matchEscQuote_ne_nil {q : Char} {l v : List Char}
    (h : matchEscQuote q l = some v) : v ≠ [] := by
  unfold matchEscQuote at h
  cases hs : escSeg q l with
  | some p =>
    obtain ⟨cs, rest⟩ := p
    rw [hs] at h
    injection h with h'
    obtain ⟨s, hacc⟩ := escMany_acc q rest.length rest cs
    rw [← h', hacc]
    exact List.append_ne_nil_of_left_ne_nil (escSeg_ne_nil hs) _
  | none => rw [hs] at h; exact Option.noConfusion h

theorem getQuotedString_ne_nil {l v : List Char}
    (h : getQuotedString l = some v) : v ≠ [] := by
  unfold getQuotedString at h
  split at h
  · next hv => injection h with h'; rw [← h']; exact matchBacktick_ne_nil hv
  · split at h
    · next hv => injection h with h'; rw [← h']; exact matchBracket_ne_nil hv
    · split at h
      · next hv => injection h with h'; rw [← h']; exact matchEscQuote_ne_nil hv
      · exact matchEscQuote_ne_nil h

theorem getQuotedStringToken_goodVal {l : List Char} {t : Token}
    (h : getQuotedStringToken l = some t) :
    t.value = none ∨ ∃ v, t.value = some v ∧ v ≠ [] := by
  cases l with
  | nil => simp [getQuotedStringToken] at h
  | cons c r =>
    simp only [getQuotedStringToken] at h
    split at h
    · injection h with h'
      rw [← h']
      cases hq : getQuotedString (c :: r) with
      | none => exact Or.inl rfl
      | some v => exact Or.inr ⟨v, rfl, getQuotedString_ne_nil hq⟩
    · exact Option.noConfusion h

theorem getVariableToken_goodVal {l : List Char} {t : Token}
    (h : getVariableToken l = some t) : ∃ v, t.value = some v ∧ v ≠ [] := by
  cases l with
  | nil => simp [getVariableToken] at h
  | cons c0 r0 =>
    cases r0 with
    | nil => simp [getVariableToken] at h
    | cons c1 rest =>
      simp only [getVariableToken] at h
      split at h
      · split at h
        · injection h with h'
          exact ⟨_, by rw [← h'], List.cons_ne_nil _ _⟩
        · split at h
          · exact Option.noConfusion h
          · injection h with h'
            exact ⟨_, by rw [← h'], List.cons_ne_nil _ _⟩
      · exact Option.noConfusion h

theorem descFind_some {f : Nat → Option Nat} {n a : Nat}
    (h : descFind f n = some a) : ∃ k, k ≤ n ∧ f k = some a := by
  induction n with
  | zero => exact ⟨0, Nat.le_refl 0, h⟩
  | succ m ih =>
    unfold descFind at h
    cases hf : f (m + 1) with
    | some b =>
      rw [hf] at h
      injection h with h'
      exact ⟨m + 1, Nat.le_refl _, by rw [hf, h']⟩
    | none =>
      rw [hf] at h
      obtain ⟨k, hk, hfk⟩ := ih h
      exact ⟨k, Nat.le_succ_of_le hk, hfk⟩

theorem fracSearch_lb {l : List Char} {a n : Nat}
    (h : fracSearch l a = some n) : a < n := by
  unfold fracSearch at h
  split at h
  · split at h
    · obtain ⟨j, _, hj⟩ := descFind_some h
      split at hj
      · exact Option.noConfusion hj
      · split at hj
        · injection hj with h'; omega
        · exact Option.noConfusion hj
    · exact Option.noConfusion h
  · exact Option.noConfusion h

theorem alt1From_lb {l : List Char} {pre n : Nat}
    (h : alt1From l pre = some n) : pre < n := by
  unfold alt1From at h
  split at h
  · exact Option.noConfusion h
  · obtain ⟨k, _, hk⟩ := descFind_some h
    split at hk
    · exact Option.noConfusion hk
    · next hk0 =>
      split at hk
      · next hfrac =>
        injection hk with h'
        have := fracSearch_lb hfrac
        omega
      · split at hk
        · injection hk with h'
          have : ¬(k = 0) := by simpa using hk0
          omega
        · exact Option.noConfusion hk

theorem signSearch_lb {l : List Char} {n : Nat}
    (h : signSearch l = some n) : 1 ≤ n := by
  unfold signSearch at h
  split at h
  · split at h
    · obtain ⟨k, _, hk⟩ := descFind_some h
      have := alt1From_lb hk
      omega
    · exact Option.noConfusion h
  · exact Option.noConfusion h

theorem alt1_lb {l : List Char} {n : Nat} (h : alt1 l = some n) : 1 ≤ n := by
  unfold alt1 at h
  split at h
  · next hv => injection h with h'; rw [← h']; exact signSearch_lb hv
  · have := alt1From_lb h
    omega

theorem alt0x_lb {l : List Char} {n : Nat} (h : alt0x l = some n) : 1 ≤ n := by
  unfold alt0x at h
  split at h
  · obtain ⟨k, _, hk⟩ := descFind_some h
    split at hk
    · exact Option.noConfusion hk
    · split at hk
      · injection hk with h'; omega
      · exact Option.noConfusion hk
  · exact Option.noConfusion h

theorem alt0b_lb {l : List Char} {n : Nat} (h : alt0b l = some n) : 1 ≤ n := by
  unfold alt0b at h
  split at h
  · obtain ⟨k, _, hk⟩ := descFind_some h
    split at hk
    · exact Option.noConfusion hk
    · split at hk
      · injection hk with h'; omega
      · exact Option.noConfusion hk
  · exact Option.noConfusion h

theorem numberMatchLen_lb {l : List Char} {n : Nat}
    (h : numberMatchLen l = some n) : 1 ≤ n := by
  unfold numberMatchLen at h
  split at h
  · next hv => injection h with h'; rw [← h']; exact alt1_lb hv
  · split at h
    · next hv => injection h with h'; rw [← h']; exact alt0x_lb hv
    · exact alt0b_lb h

theorem getNumberToken_goodVal {c : Char} {r : List Char} {t : Token}
    (h : getNumberToken (c :: r) = some t) : ∃ v, t.value = some v ∧ v ≠ [] := by
  unfold getNumberToken at h
  rw [Option.map_eq_some'] at h
  obtain ⟨n, hn, ht⟩ := h
  have h1 := numberMatchLen_lb hn
  obtain ⟨m, rfl⟩ : ∃ m, n = m + 1 := ⟨n - 1, by omega⟩
  refine ⟨(c :: r).take (m + 1), by rw [← ht], ?_⟩
  rw [List.take_succ_cons]
  exact List.cons_ne_nil _ _

theorem getBoundaryCharacterToken_goodVal {l : List Char} {t : Token}
    (h : getBoundaryCharacterToken l = some t) : ∃ v, t.value = some v ∧ v ≠ [] := by
  cases l with
  | nil => simp [getBoundaryCharacterToken] at h
  | cons c r =>
    simp only [getBoundaryCharacterToken] at h
    split at h
    · injection h with h'
      exact ⟨[c], by rw [← h'], List.cons_ne_nil _ _⟩
    · exact Option.noConfusion h

theorem findAlt_some {extra : List Char → Bool} {alts : List (List Char)}
    {l v : List Char} (h : findAlt extra alts l = some v) :
    ∃ w, w ∈ alts ∧ ciStarts w l = true ∧ extra (l.drop w.length) = true ∧
      v = l.take w.length := by
  induction alts with
  | nil => exact Option.noConfusion h
  | cons w ws ih =>
    unfold findAlt at h
    split at h
    · next hcond =>
      injection h with h'
      obtain ⟨h1, h2⟩ := Bool.and_eq_true_iff.mp hcond
      exact ⟨w, List.mem_cons_self _ _, h1, h2, h'.symm⟩
    · obtain ⟨w', hmem, hs⟩ := ih h
      exact ⟨w', List.mem_cons_of_mem _ hmem, hs⟩

theorem reservedMatch_ne_nil_or_g2 {words : List (List Char)} {c : Char}
    {r v : List Char} (h : reservedMatch words (c :: r) = some v) :
    v ≠ [] ∨ reservedG2 (c :: r) = true := by
  obtain ⟨w, _, _, hex, hv⟩ := findAlt_some h
  cases w with
  | nil => right; simpa using hex
  | cons a w' =>
    left
    rw [hv, List.length_cons, List.take_succ_cons]
    exact List.cons_ne_nil _ _

theorem getReservedWordToken_goodVal {cfg : Config} {c : Char} {r : List Char}
    {prev : Option Token} {t : Token}
    (h : getReservedWordToken cfg (c :: r) prev = some t)
    (hws : isJsSpace c = false) (hbd : isBoundary c = false) :
    ∃ v, t.value = some v ∧ v ≠ [] := by
  have hg2 : reservedG2 (c :: r) = false := by
    simp [reservedG2, hws, hbd]
  unfold getReservedWordToken at h
  split at h
  · exact Option.noConfusion h
  · split at h
    · next v hv =>
      injection h with h'
      rcases reservedMatch_ne_nil_or_g2 hv with hne | hgg
      · exact ⟨v, by rw [← h'], hne⟩
      · rw [hg2] at hgg; exact Bool.noConfusion hgg
    · split at h
      · next v hv =>
        injection h with h'
        rcases reservedMatch_ne_nil_or_g2 hv with hne | hgg
        · exact ⟨v, by rw [← h'], hne⟩
        · rw [hg2] at hgg; exact Bool.noConfusion hgg
      · rw [Option.map_eq_some'] at h
        obtain ⟨v, hv, ht⟩ := h
        rcases reservedMatch_ne_nil_or_g2 hv with hne | hgg
        · exact ⟨v, by rw [← ht], hne⟩
        · rw [hg2] at hgg; exact Bool.noConfusion hgg

theorem getFunctionWordToken_goodVal {cfg : Config} {c : Char} {r : List Char}
    {t : Token} (h : getFunctionWordToken cfg (c :: r) = some t)
    (hbd : isBoundary c = false) :
    ∃ v, t.value = some v ∧ v ≠ [] := by
  unfold getFunctionWordToken at h
  rw [Option.map_eq_some'] at h
  obtain ⟨v, hv, ht⟩ := h
  obtain ⟨w, _, _, hex, hveq⟩ := findAlt_some hv
  cases w with
  | nil =>
    exfalso
    simp only [List.length_nil, List.drop_zero, funcG2] at hex
    have hc : c = '(' := by simpa using hex
    have hbt : isBoundary c = true := by rw [hc]; decide
    rw [hbt] at hbd
    exact Bool.noConfusion hbd
  | cons a w' =>
    refine ⟨v, by rw [← ht], ?_⟩
    rw [hveq, List.length_cons, List.take_succ_cons]
    exact List.cons_ne_nil _ _

theorem fallbackRun_ne_nil {c : Char} {r : List Char}
    (hws : isJsSpace c = false) (hbd : isBoundary c = false)
    (hdq : (c == dqChar) = false) (hsq : (c == sqChar) = false)
    (hbq : (c == bqChar) = false) :
    fallbackRun (c :: r) ≠ [] := by
  unfold fallbackRun
  rw [hws, hbd, hdq, hsq, hbq]
  simp

/-- On every non-empty remaining input, the matcher chain (including the
fallback) yields a token, and that token's text is either undefined or
non-empty: no winning match has zero length. -/
theorem getNextTokenOpt_progress (cfg : Config) (c : Char) (r : List Char)
    (prev : Option Token) :
    ∃ t, getNextTokenOpt cfg (c :: r) prev = some t ∧
      (t.value = none ∨ ∃ v, t.value = some v ∧ v ≠ []) := by
  unfold getNextTokenOpt
  cases h1 : getWhitespaceToken (c :: r) with
  | some t => exact ⟨t, rfl, Or.inr (getWhitespaceToken_goodVal h1)⟩
  | none =>
  cases h2 : getCommentToken (c :: r) with
  | some t => exact ⟨t, rfl, Or.inr (getCommentToken_goodVal h2)⟩
  | none =>
  cases h3 : getQuotedStringToken (c :: r) with
  | some t => exact ⟨t, rfl, getQuotedStringToken_goodVal h3⟩
  | none =>
  cases h4 : getVariableToken (c :: r) with
  | some t => exact ⟨t, rfl, Or.inr (getVariableToken_goodVal h4)⟩
  | none =>
  cases h5 : getNumberToken (c :: r) with
  | some t => exact ⟨t, rfl, Or.inr (getNumberToken_goodVal h5)⟩
  | none =>
  cases h6 : getBoundaryCharacterToken (c :: r) with
  | some t => exact ⟨t, rfl, Or.inr (getBoundaryCharacterToken_goodVal h6)⟩
  | none =>
  have hws := ws_none_head h1
  have hbd := boundary_none_head h6
  obtain ⟨hdq, hsq, hbq⟩ := quoted_none_head h3
  cases h7 : getReservedWordToken cfg (c :: r) prev with
  | some t => exact ⟨t, rfl, Or.inr (getReservedWordToken_goodVal h7 hws hbd)⟩
  | none =>
  cases h8 : getFunctionWordToken cfg (c :: r) with
  | some t => exact ⟨t, rfl, Or.inr (getFunctionWordToken_goodVal h8 hbd)⟩
  | none =>
  exact ⟨⟨.WORD, some (fallbackRun (c :: r))⟩, rfl,
    Or.inr ⟨fallbackRun (c :: r), rfl, fallbackRun_ne_nil hws hbd hdq hsq hbq⟩⟩

theorem tokenizeGo_nil (cfg : Config) (fuel : Nat) (prev : Option Token) :
    tokenizeGo cfg fuel prev [] = .ok [] := by
  cases fuel <;> rfl

theorem tokenizeGo_cons (cfg : Config) (fuel : Nat) (prev : Option Token)
    (c : Char) (r : List Char) :
    tokenizeGo cfg (fuel + 1) prev (c :: r) =
      match getNextTokenOpt cfg (c :: r) prev with
      | none => .crash
      | some t =>
        match t.value with
        | none => .crash
        | some v =>
          match tokenizeGo cfg fuel (some t) ((c :: r).drop v.length) with
          | .ok ts => .ok (t :: ts)
          | r' => r' := rfl

/-- With an iteration budget of at least the remaining length, the tokenize
loop never exhausts its budget: every iteration consumes at least one
character (or the run ends in the TypeError crash). -/
theorem tokenizeGo_ne_outOfFuel (cfg : Config) :
    ∀ (fuel : Nat) (prev : Option Token) (l : List Char), l.length ≤ fuel →
      tokenizeGo cfg fuel prev l ≠ .outOfFuel := by
  intro fuel
  induction fuel with
  | zero =>
    intro prev l hlen
    cases l with
    | nil => rw [tokenizeGo_nil]; intro hcon; exact TokResult.noConfusion hcon
    | cons c r => simp at hlen
  | succ m ih =>
    intro prev l hlen
    cases l with
    | nil => rw [tokenizeGo_nil]; intro hcon; exact TokResult.noConfusion hcon
    | cons c r =>
      obtain ⟨t, ht, hgood⟩ := getNextTokenOpt_progress cfg c r prev
      rw [tokenizeGo_cons, ht]
      dsimp only
      rcases hgood with hnone | ⟨v, hval, hne⟩
      · rw [hnone]
        intro hcon
        exact TokResult.noConfusion hcon
      · rw [hval]
        dsimp only
        have hvpos : 1 ≤ v.length := List.length_pos.mpr hne
        have hlen2 : ((c :: r).drop v.length).length ≤ m := by
          rw [List.length_drop]
          simp only [List.length_cons] at hlen ⊢
          omega
        have hrec := ih (some t) ((c :: r).drop v.length) hlen2
        cases hres : tokenizeGo cfg m (some t) ((c :: r).drop v.length) with
        | ok ts => intro hcon; exact TokResult.noConfusion hcon
        | crash => intro hcon; exact TokResult.noConfusion hcon
        | outOfFuel => exact absurd hres hrec

/-- Claim C5 as amended.  Construction never fails: the constructor
contains no validation, so any configuration (including all-empty keyword
lists) produces a tokenizer and no configuration error exists at
construction or tokenize time.  The join of an empty keyword list is the
empty pattern — a single empty alternative — so those rules CAN match the
empty string (e.g. the reserved rule before a comma), but such zero-length
matches never win the scan: the tokenizer built from the empty
configuration completes every input within its length in iterations. -/
theorem c5_construction_never_fails_amended :
    wordAlts [] = [[]] ∧
    reservedMatch [] [','] = some [] ∧
    (∀ l : List Char, tokenize cfgEmpty l ≠ .outOfFuel) :=
  ⟨rfl, by decide,
   fun l => tokenizeGo_ne_outOfFuel cfgEmpty l.length none l (Nat.le_refl _)⟩

/-- Claim C6 as amended.  For every configuration and every finite input,
the scan makes progress at every step: with an iteration budget of exactly
the input length, tokenize never runs out of budget.  It returns a token
list — unless the quoted-string matcher produces an undefined value, in
which case it terminates by throwing a TypeError instead of returning (see
the counterexample). -/
theorem c6_progress_bound_amended :
    ∀ (cfg : Config) (l : List Char), tokenize cfg l ≠ .outOfFuel :=
  fun cfg l => tokenizeGo_ne_outOfFuel cfg l.length none l (Nat.le_refl _)

end SqlFmt
